import Mathlib

/-!
Verification development for the worker-process orchestration core of
`pt_hub.py` (PowerTrader hub).  The Python source is shallowly embedded:
each relevant method becomes an executable Lean function over an explicit
orchestrator-state record, with the filesystem and OS abstracted as
explicit inputs (file-existence booleans, spawn outcomes, file contents
with mtimes).  Process-termination requests are modelled as immediately
making the handle report not-running, matching the source's use of
`proc.poll() is None` as the liveness primitive.
-/

namespace PTHub

/-- An OS process as seen through a subprocess handle: its pid and whether
`poll()` still reports it running (`poll() is None`). -/
structure Proc where
  pid : Nat
  alive : Bool
deriving Repr, DecidableEq

/-- Embeds the source's `ProcInfo` record: an optional subprocess handle
(`p.proc`) and an optional launch time (`p.start_time`).  The script path
is abstracted into explicit file-existence inputs of the operations. -/
structure ProcInfo where
  proc : Option Proc
  start_time : Option Nat
deriving Repr, DecidableEq

/-- Outcome of an attempted `subprocess.Popen`: either a new pid or a
raised OS error (carrying its message). -/
inductive SpawnResult where
  | ok (pid : Nat)
  | err (msg : String)
deriving Repr, DecidableEq

/-- Contents of the runner-ready gate file (`runner_ready_path`): the
`ready` flag and `stage` string of the JSON record. -/
structure ReadyRecord where
  ready : Bool
  stage : String
deriving Repr, DecidableEq

/-- Embeds `p.proc and p.proc.poll() is None`: a handle exists and the OS
still reports the process running. -/
def procRunning (p : ProcInfo) : Bool :=
  match p.proc with
  | some q => q.alive
  | none => false

/-- The orchestrator state: the slice of the hub object's attributes that
the orchestration core reads and writes.  `trainers` and `neural_runners`
are the per-coin registries (insertion-ordered association lists, like the
Python dicts); `runner_ready_file` is the on-disk readiness artifact
(`none` = missing or unparseable, read as not ready). -/
structure HubState where
  proc_neural : ProcInfo
  proc_trader : ProcInfo
  trainers : List (String × ProcInfo)
  neural_runners : List (String × ProcInfo)
  runner_ready_file : Option ReadyRecord
  auto_start_trader_pending : Bool
  auto_start_runner_after_training : Bool
  trader_poll_count : Nat
deriving Repr, DecidableEq

/-- Embeds `_read_runner_ready(...).get("ready", False)`: missing or
unparseable artifact reads as not ready. -/
def readyFlag (s : HubState) : Bool :=
  match s.runner_ready_file with
  | some r => r.ready
  | none => false

/-- Python dict assignment `d[k] = v` on an insertion-ordered association
list: replace in place if the key is present, else append. -/
def upsertProc (k : String) (v : ProcInfo) : List (String × ProcInfo) → List (String × ProcInfo)
  | [] => [(k, v)]
  | e :: rest => if e.1 = k then (k, v) :: rest else e :: upsertProc k v rest

/-- Embeds `_start_process(p)`: no-op if the handle is live; error popup if
the script file is missing; otherwise `Popen` (outcome supplied as
`spawn`), recording the handle and launch time on success and reporting
the failure on exception.  Returns (new info, errorReported, spawned). -/
def start_process (fileExists : Bool) (spawn : SpawnResult) (now : Nat) (p : ProcInfo) :
    ProcInfo × Bool × Bool :=
  if procRunning p then (p, false, false)
  else if fileExists = false then (p, true, false)
  else
    match spawn with
    | .ok pid => (⟨some ⟨pid, true⟩, some now⟩, false, true)
    | .err _ => (p, true, false)

/-- Embeds `_stop_process(p)`: no-op unless live; otherwise issue
`terminate()` (modelled as the handle no longer reporting running) and
clear `start_time`. -/
def stop_process (p : ProcInfo) : ProcInfo :=
  if procRunning p then ⟨p.proc.map (fun q => ⟨q.pid, false⟩), none⟩ else p

/-- A `terminate()` call issued directly on a live handle (the trainer
loop in `stop_all_scripts` does not clear `start_time`). -/
def terminate_proc (p : ProcInfo) : ProcInfo :=
  if procRunning p then ⟨p.proc.map (fun q => ⟨q.pid, false⟩), p.start_time⟩ else p

/-- Embeds `start_neural()`: first rewrites the runner-ready gate file to
`ready=false, stage="starting"`, then `_start_process(self.proc_neural)`.
Returns (new state, errorReported). -/
def start_neural (fileExists : Bool) (spawn : SpawnResult) (now : Nat) (s : HubState) :
    HubState × Bool :=
  let s1 := { s with runner_ready_file := some ⟨false, "starting"⟩ }
  let r := start_process fileExists spawn now s1.proc_neural
  ({ s1 with proc_neural := r.1 }, r.2.1)

/-- Embeds `start_trader()` = `_start_process(self.proc_trader)`. -/
def start_trader (fileExists : Bool) (spawn : SpawnResult) (now : Nat) (s : HubState) :
    HubState × Bool :=
  let r := start_process fileExists spawn now s.proc_trader
  ({ s with proc_trader := r.1 }, r.2.1)

/-- Liveness of the per-coin neural runner registered under `coin`
(`coin in self.neural_runners and ... .proc.poll() is None`). -/
def runnerLive (s : HubState) (coin : String) : Bool :=
  match s.neural_runners.lookup coin with
  | some p => procRunning p
  | none => false

/-- Liveness of the per-coin trainer registered under `coin`. -/
def trainerLive (s : HubState) (coin : String) : Bool :=
  match s.trainers.lookup coin with
  | some p => procRunning p
  | none => false

/-- Observable actions emitted by the orchestration operations, used to
state ordering and absence properties over executions. -/
inductive Act where
  | clearPendingFlag
  | stopCallTrader
  | stopCallNeural
  | stopCallTrainer (coin : String)
  | writeReadyRecord (ready : Bool) (stage : String)
  | spawnCallTrader (coin : String)
  | spawnNeuralRunner (coin : String)
deriving Repr, DecidableEq

/-- Embeds `start_neural_for_coin(coin)`: empty-id guard, missing-runner
error, duplicate-runner guard, then `Popen`; on success the new handle
is registered in `neural_runners`.  The duplicate guard in the source
reads `self.neural_runners[coin].proc`, but the registry holds `LogProc`
records, which have only `.info.proc` — so for ANY registered coin, live
or dead, the guard raises an uncaught `AttributeError` before `Popen` is
reached; this escaping exception is modelled as `Except.error`, and the
spawn attempt is reachable only when the coin is unregistered.  The coin
id is taken already normalized (`strip().upper()` abstracted); folder
creation and script copying touch only the filesystem and are abstracted
into `runnerFound`.  This method never writes the runner-ready gate
file.  Returns `.ok (new state, errorReported, actions)` or `.error` for
the escaping guard exception. -/
def start_neural_for_coin (runnerFound : Bool) (spawn : SpawnResult) (_now : Nat)
    (coin : String) (s : HubState) : Except String (HubState × Bool × List Act) :=
  if coin = "" then .ok (s, false, [])
  else if runnerFound = false then .ok (s, true, [])
  else
    match s.neural_runners.lookup coin with
    | some _ => .error "AttributeError: LogProc object has no attribute proc"
    | none =>
        match spawn with
        | .ok pid =>
            .ok ({ s with
                neural_runners := upsertProc coin ⟨some ⟨pid, true⟩, none⟩ s.neural_runners },
              false, [Act.spawnNeuralRunner coin])
        | .err _ => .ok (s, true, [])

/-- Embeds `_start_single_trainer(coin)`: missing-trainer error,
duplicate-live-trainer guard, then `Popen`; on success the handle is
registered in `trainers` and the per-coin `trainer_status.json` is
written with state TRAINING (tracked by the returned flag).  Returns
(new state, errorReported, statusFileWritten). -/
def start_single_trainer (trainerFound : Bool) (spawn : SpawnResult) (_now : Nat)
    (coin : String) (s : HubState) : HubState × Bool × Bool :=
  if trainerFound = false then (s, true, false)
  else if trainerLive s coin then (s, false, false)
  else
    match spawn with
    | .ok pid =>
        ({ s with trainers := upsertProc coin ⟨some ⟨pid, true⟩, none⟩ s.trainers },
         false, true)
    | .err _ => (s, true, false)

/-- Embeds `stop_all_scripts()`: clear `_auto_start_trader_pending`, stop
the trader, stop the neural runner, terminate every live GUI-launched
trainer (in registry order), and finally rewrite the runner-ready gate
file to `ready=false, stage="stopped"`.  The per-coin STOPPED status-file
writes inside the trainer loop touch only per-coin files and are not
modelled.  Returns (new state, emitted action sequence). -/
def stop_all_scripts (s : HubState) : HubState × List Act :=
  let s1 := { s with auto_start_trader_pending := false }
  let s2 := { s1 with proc_trader := stop_process s1.proc_trader }
  let s3 := { s2 with proc_neural := stop_process s2.proc_neural }
  let s4 := { s3 with trainers := s3.trainers.map (fun (e : String × ProcInfo) => (e.1, terminate_proc e.2)) }
  let s5 := { s4 with runner_ready_file := some ⟨false, "stopped"⟩ }
  (s5,
    Act.clearPendingFlag :: Act.stopCallTrader :: Act.stopCallNeural ::
      (s.trainers.map (fun (e : String × ProcInfo) => Act.stopCallTrainer e.1) ++
        [Act.writeReadyRecord false "stopped"]))

/-- Outcome of one invocation of the readiness-poll callback. -/
inductive PollOutcome where
  | noPending
  | cancelled
  | ready
  | timedOut
  | rescheduled
deriving Repr, DecidableEq

/-- Embeds `start_trader_for_coin(coin)`: the source's placeholder that
falls back to `start_trader()` (the single shared trader process).  Emits
a `spawnCallTrader` action when a process is actually spawned. -/
def start_trader_for_coin (fileExists : Bool) (spawn : SpawnResult) (now : Nat)
    (coin : String) (s : HubState) : HubState × List Act :=
  let r := start_process fileExists spawn now s.proc_trader
  ({ s with proc_trader := r.1 },
   if r.2.2 then [Act.spawnCallTrader coin] else [])

/-- The `for coin in coins: self.start_trader_for_coin(coin)` loop. -/
def start_traders_for_coins (fileExists : Bool) (spawn : SpawnResult) (now : Nat) :
    List String → HubState → HubState × List Act
  | [], s => (s, [])
  | c :: cs, s =>
      let r := start_trader_for_coin fileExists spawn now c s
      let r2 := start_traders_for_coins fileExists spawn now cs r.1
      (r2.1, r.2 ++ r2.2)

/-- Embeds one invocation of
`_poll_runner_ready_then_start_trader_for_coins(coins)`: return if the
pending flag is cleared; cancel (clearing the flag) if the shared main
runner handle `proc_neural` is not running; start the traders if the
readiness artifact reports ready; otherwise bump the attempt counter,
timing out (and starting the traders anyway) once it exceeds 20, else
reschedule.  Returns (new state, outcome, actions). -/
def poll_tick_for_coins (fileExists : Bool) (spawn : SpawnResult) (now : Nat)
    (coins : List String) (s : HubState) : HubState × PollOutcome × List Act :=
  if s.auto_start_trader_pending = false then (s, .noPending, [])
  else if procRunning s.proc_neural = false then
    ({ s with auto_start_trader_pending := false }, .cancelled, [])
  else if readyFlag s then
    let r := start_traders_for_coins fileExists spawn now coins
      { s with auto_start_trader_pending := false }
    (r.1, .ready, r.2)
  else
    let c := s.trader_poll_count + 1
    if 20 < c then
      let r := start_traders_for_coins fileExists spawn now coins
        { s with auto_start_trader_pending := false, trader_poll_count := c }
      (r.1, .timedOut, r.2)
    else ({ s with trader_poll_count := c }, .rescheduled, [])

/-- What the external world presents to one poll tick: whether the OS
reports the shared main runner process running, and the `ready` flag the
generator has last written to the readiness artifact. -/
structure TickObs where
  alive : Bool
  ready : Bool
deriving Repr, DecidableEq

/-- Imposes a tick observation on the state: the main runner handle's
liveness and the current readiness-artifact contents. -/
def applyObs (o : TickObs) (s : HubState) : HubState :=
  { s with
      proc_neural := ⟨if o.alive then some ⟨0, true⟩ else none, s.proc_neural.start_time⟩,
      runner_ready_file := some ⟨o.ready, "running"⟩ }

/-- Result of running the poll over a finite observation trace. -/
inductive RunResult where
  | exhausted
  | stoppedExternally
  | cancelled
  | ready
  | timedOut
deriving Repr, DecidableEq

/-- A run of the readiness poll: each list element is what the world looks
like at one 250 ms tick; the poll re-fires while it reschedules and stops
at its first terminal outcome (trace exhaustion means it was still
waiting). -/
def runPoll (fileExists : Bool) (spawn : SpawnResult) (now : Nat) (coins : List String) :
    List TickObs → HubState → HubState × RunResult
  | [], s => (s, .exhausted)
  | o :: rest, s =>
      let r := poll_tick_for_coins fileExists spawn now coins (applyObs o s)
      match r.2.1 with
      | .noPending => (r.1, .stoppedExternally)
      | .cancelled => (r.1, .cancelled)
      | .ready => (r.1, .ready)
      | .timedOut => (r.1, .timedOut)
      | .rescheduled => runPoll fileExists spawn now coins rest r.1

/-- Embeds `_start_neural_then_trader()`: set the pending flag, reset the
poll counter, spawn the per-coin neural runners for the trained coins
(the trained-coin filter is a filesystem read, abstracted by passing the
resulting list), and schedule the readiness poll for those coins.  The
`for` loop is not wrapped in a `try`, so an exception escaping
`start_neural_for_coin` aborts the callback there — state changes made
so far persist and the poll is never scheduled; the returned flag
records whether the loop raised.  Returns (state, actions, raised). -/
def start_neural_then_trader (runnerFound : Bool) (spawn : SpawnResult) (now : Nat)
    (coins : List String) (s : HubState) : HubState × List Act × Bool :=
  let s1 := { s with auto_start_trader_pending := true, trader_poll_count := 0 }
  go coins s1
where
  /-- The `for coin in trained_coins: self.start_neural_for_coin(coin)`
  loop, stopping at the first escaping exception. -/
  go : List String → HubState → HubState × List Act × Bool
    | [], s => (s, [], false)
    | c :: cs, s =>
        match start_neural_for_coin runnerFound spawn now c s with
        | .ok r =>
            let r2 := go cs r.1
            (r2.1, r.2.2 ++ r2.2.1, r2.2.2)
        | .error _ => (s, [], true)

/-- A callback sitting in the Tk `after` queue: the start-sequence helper
`_start_neural_then_trader` (with its trained-coin list) or one firing of
the readiness poll. -/
inductive Cb where
  | startSeq (coins : List String)
  | pollCoins (coins : List String)
deriving Repr, DecidableEq

/-- An event of the single-threaded control loop: a `stop_all_scripts`
command, running the next queued callback (with that step's filesystem
and spawn-outcome environment), or a generator worker rewriting the
readiness artifact. -/
inductive Ev where
  | stopAll
  | runNext (fileExists : Bool) (spawn : SpawnResult) (now : Nat)
  | readyWrite (b : Bool) (stage : String)
deriving Repr, DecidableEq

/-- Orchestrator state plus the queue of scheduled callbacks. -/
structure Sys where
  hub : HubState
  queue : List Cb
deriving Repr, DecidableEq

/-- One step of the event loop. -/
def stepEv : Ev → Sys → Sys × List Act
  | .stopAll, ⟨h, q⟩ =>
      let r := stop_all_scripts h
      (⟨r.1, q⟩, r.2)
  | .readyWrite b st, ⟨h, q⟩ =>
      (⟨{ h with runner_ready_file := some ⟨b, st⟩ }, q⟩, [])
  | .runNext _ _ _, ⟨h, []⟩ => (⟨h, []⟩, [])
  | .runNext fe sp now, ⟨h, .startSeq coins :: rest⟩ =>
      let r := start_neural_then_trader fe sp now coins h
      (⟨r.1, rest ++ (if r.2.2 then [] else [Cb.pollCoins coins])⟩, r.2.1)
  | .runNext fe sp now, ⟨h, .pollCoins coins :: rest⟩ =>
      let r := poll_tick_for_coins fe sp now coins h
      (⟨r.1, rest ++ (if r.2.1 = PollOutcome.rescheduled then [Cb.pollCoins coins] else [])⟩,
       r.2.2)

/-- Run a sequence of events, collecting all emitted actions. -/
def runEvs : List Ev → Sys → Sys × List Act
  | [], s => (s, [])
  | e :: rest, s =>
      let r := stepEv e s
      let r2 := runEvs rest r.1
      (r2.1, r.2 ++ r2.2)

/-- A file as the cache layer sees it: its modification time and its raw
content. -/
structure FileData where
  mtime : Nat
  content : String
deriving Repr, DecidableEq

/-- Python dict assignment for a decode cache keyed by strings. -/
def upsertCache {α : Type} (k : String) (m : Nat) (v : α) :
    List (String × Nat × α) → List (String × Nat × α)
  | [] => [(k, m, v)]
  | e :: rest => if e.1 = k then (k, m, v) :: rest else e :: upsertCache k m v rest

/-- Embeds the `_cached(path, loader, default)` helper (neural-overview
cache): stat the path (`fs path`, `none` = stat raised) — on failure
return the default and leave the cache alone; on a cache hit at the same
mtime return the cached value without running the loader; otherwise run
the loader and store `(mtime, value)`.  The source's loaders
(`read_int_from_file`, `_load_short_from_memory_json`, ...) swallow their
own decode failures and return the supplied default, modelled by
`(decode content).getD dflt`.  Returns (value, new cache, loaderRan). -/
def cached {α : Type} (fs : String → Option FileData) (decode : String → Option α)
    (dflt : α) (cache : List (String × Nat × α)) (path : String) :
    α × List (String × Nat × α) × Bool :=
  match fs path with
  | none => (dflt, cache, false)
  | some f =>
      match cache.lookup path with
      | some (m, v) =>
          if m = f.mtime then (v, cache, false)
          else
            let v' := (decode f.content).getD dflt
            (v', upsertCache path f.mtime v' cache, true)
      | none =>
          let v' := (decode f.content).getD dflt
          (v', upsertCache path f.mtime v' cache, true)

/-- Embeds the `_tick` trainer-status mtime cache: stat the status file —
on failure use the default and leave the cache alone; on a cache hit at
the same mtime return the cached data; otherwise read and `json.load` the
file — a decode exception is caught by the surrounding `except`, so the
default is used and the cache-store line never runs.  Returns
(value, new cache, decodeAttempted). -/
def tickStatusCached {α : Type} (fs : String → Option FileData) (decode : String → Option α)
    (dflt : α) (cache : List (String × Nat × α)) (key : String) (path : String) :
    α × List (String × Nat × α) × Bool :=
  match fs path with
  | none => (dflt, cache, false)
  | some f =>
      match cache.lookup key with
      | some (m, v) =>
          if m = f.mtime then (v, cache, false)
          else
            match decode f.content with
            | some v' => (v', upsertCache key f.mtime v' cache, true)
            | none => (dflt, cache, true)
      | none =>
          match decode f.content with
          | some v' => (v', upsertCache key f.mtime v' cache, true)
          | none => (dflt, cache, true)

/-- The per-coin filesystem facts that `_coin_is_trained` consults:
whether the coin folder exists, whether the dry-run saved-model marker
file exists, the `state` field of `trainer_status.json` uppercased
(`none` when the file is missing, unparseable, or not a JSON object), and
the parsed value of `trainer_last_training_time.txt` (`none` when the
file is missing or does not parse as a float). -/
structure CoinEnv where
  folderExists : Bool
  dryRunMarker : Bool
  statusState : Option String
  stamp : Option Int
deriving Repr, DecidableEq

/-- The recency window for the training-completion timestamp:
`14 * 24 * 60 * 60` seconds. -/
def recencyWindow : Int := 14 * 24 * 60 * 60

/-- The legacy fallback of `_coin_is_trained`: the timestamp file exists,
parses to a positive value, and is within the recency window. -/
def stampRecent (stamp : Option Int) (now : Int) : Bool :=
  match stamp with
  | some ts => decide (0 < ts) && decide (now - ts ≤ recencyWindow)
  | none => false

/-- Embeds `_coin_is_trained(coin)`: missing folder is never trained; in
dry-run mode the saved-model marker suffices; a status artifact stating
FINISHED or TRAINED is trained; TRAINING is trained only with a recent
completion stamp; any other (or unreadable) status falls back to the
legacy recent-stamp check. -/
def coin_is_trained (dryRun : Bool) (now : Int) (env : CoinEnv) : Bool :=
  if env.folderExists = false then false
  else if dryRun && env.dryRunMarker then true
  else
    match env.statusState with
    | some st =>
        if st = "FINISHED" then true
        else if st = "TRAINED" then true
        else if st = "TRAINING" then stampRecent env.stamp now
        else stampRecent env.stamp now
    | none => stampRecent env.stamp now

/-- Embeds `_training_status_map()`: each managed coin maps to TRAINED
when `_coin_is_trained` holds, else TRAINING when a trainer is reported
running for it, else NOT TRAINED. -/
def training_status_map (dryRun : Bool) (now : Int) (coins : List String)
    (fs : String → CoinEnv) (running : String → Bool) : List (String × String) :=
  coins.map (fun c =>
    (c, if coin_is_trained dryRun now (fs c) then "TRAINED"
        else if running c then "TRAINING" else "NOT TRAINED"))

/-- Embeds the `_tick` fleet flag
`all_trained = all(v == "TRAINED" for v in status_map.values()) if status_map else False`. -/
def all_trained (dryRun : Bool) (now : Int) (coins : List String)
    (fs : String → CoinEnv) (running : String → Bool) : Bool :=
  let m := training_status_map dryRun now coins fs running
  if m.isEmpty then false
  else m.all (fun e => e.2 = "TRAINED")

/-- A `ProcInfo` with no handle (process never started). -/
def deadInfo : ProcInfo := ⟨none, none⟩

/-- A `ProcInfo` holding a live handle with the given pid. -/
def liveInfo (pid : Nat) : ProcInfo := ⟨some ⟨pid, true⟩, some 0⟩

/-- A quiescent hub: nothing running, no artifact, no pending sequence. -/
def baseState : HubState := ⟨deadInfo, deadInfo, [], [], none, false, false, 0⟩

/-- A hub whose readiness artifact still holds `ready=true` from a
previous run. -/
def staleReadyState : HubState := { baseState with runner_ready_file := some ⟨true, "ready"⟩ }

/-- A filesystem with a single file `"p"` at mtime 1 whose content does
not decode. -/
def cexFs : String → Option FileData := fun p => if p = "p" then some ⟨1, "bad"⟩ else none

/-- A concrete decoder instantiating `decode_fn` for witnesses: accepts
only the content `"1"`. -/
def sampleDecode : String → Option Nat := fun s => if s = "1" then some 1 else none

/-- A coin directory with no readable trainer status but a fresh legacy
completion stamp. -/
def legacyStampEnv : CoinEnv := ⟨true, false, none, some 1⟩

/-- Spec-side predicate, following the claim's words: at some tick of the
poll (within the trace and the attempt budget) the watched dependency
process is observed not running, every earlier tick having observed it
running with the readiness artifact not yet reporting ready. -/
def deadBeforeReady (obs : List TickObs) : Prop :=
  ∃ i, i < obs.length ∧ i ≤ 20 ∧ (obs.getD i ⟨true, true⟩).alive = false ∧
    ∀ j, j < i → (obs.getD j ⟨true, true⟩).alive = true ∧ (obs.getD j ⟨true, true⟩).ready = false

/-- Classifies an action as a trading-role stop call. -/
def isTradingStop : Act → Bool
  | .stopCallTrader => true
  | _ => false

/-- Classifies an action as a generating-role stop call. -/
def isGeneratingStop : Act → Bool
  | .stopCallNeural => true
  | _ => false

/-- Classifies an action as a training-role stop call. -/
def isTrainingStop : Act → Bool
  | .stopCallTrainer _ => true
  | _ => false

/-- Classifies an action as an actual spawn of the trading role. -/
def isTraderSpawn : Act → Bool
  | .spawnCallTrader _ => true
  | _ => false

/-- Whether an action log contains a trading-role spawn. -/
def hasTraderSpawn (l : List Act) : Bool := l.any isTraderSpawn

/-- A fleet-path poll state: the sequence has spawned a live per-coin
runner and set the pending flag, while the shared main runner handle was
never started. -/
def fleetPollState : HubState :=
  { baseState with neural_runners := [("BTC", liveInfo 4)], auto_start_trader_pending := true }

/-- A pending-poll state over a quiescent hub. -/
def pendingPollState : HubState := { baseState with auto_start_trader_pending := true }

/-- A hub with one live GUI-launched trainer registered. -/
def trainersState : HubState := { baseState with trainers := [("BTC", liveInfo 3)] }

/-! ## Supporting lemmas -/

theorem lookup_upsertCache {α : Type} (k : String) (m : Nat) (v : α)
    (c : List (String × Nat × α)) : (upsertCache k m v c).lookup k = some (m, v) := by
  induction c with
  | nil => simp [upsertCache, List.lookup]
  | cons e rest ih =>
      by_cases h : e.1 = k
      · simp [upsertCache, h, List.lookup]
      · have hb : (k == e.1) = false := beq_eq_false_iff_ne.mpr fun he => h he.symm
        simp [upsertCache, h, List.lookup, hb, ih]

theorem applyObs_pending (o : TickObs) (s : HubState) :
    (applyObs o s).auto_start_trader_pending = s.auto_start_trader_pending := rfl

theorem applyObs_count (o : TickObs) (s : HubState) :
    (applyObs o s).trader_poll_count = s.trader_poll_count := rfl

theorem procRunning_applyObs (o : TickObs) (s : HubState) :
    procRunning (applyObs o s).proc_neural = o.alive := by
  cases h : o.alive <;> simp [applyObs, procRunning, h]

theorem readyFlag_applyObs (o : TickObs) (s : HubState) :
    readyFlag (applyObs o s) = o.ready := rfl

theorem poll_tick_noPending (fe : Bool) (sp : SpawnResult) (now : Nat) (coins : List String)
    (s : HubState) (h : s.auto_start_trader_pending = false) :
    poll_tick_for_coins fe sp now coins s = (s, PollOutcome.noPending, []) := by
  simp [poll_tick_for_coins, h]

theorem poll_tick_depDead (fe : Bool) (sp : SpawnResult) (now : Nat) (coins : List String)
    (s : HubState) (hp : s.auto_start_trader_pending = true)
    (hd : procRunning s.proc_neural = false) :
    poll_tick_for_coins fe sp now coins s
      = ({ s with auto_start_trader_pending := false }, PollOutcome.cancelled, []) := by
  simp [poll_tick_for_coins, hp, hd]

theorem runPoll_cons (fe : Bool) (sp : SpawnResult) (now : Nat) (coins : List String)
    (o : TickObs) (rest : List TickObs) (s : HubState)
    (hp : s.auto_start_trader_pending = true) :
    runPoll fe sp now coins (o :: rest) s =
      if o.alive = false then
        ({ applyObs o s with auto_start_trader_pending := false }, RunResult.cancelled)
      else if o.ready = true then
        ((start_traders_for_coins fe sp now coins
            { applyObs o s with auto_start_trader_pending := false }).1, RunResult.ready)
      else if 20 < s.trader_poll_count + 1 then
        ((start_traders_for_coins fe sp now coins
            { applyObs o s with auto_start_trader_pending := false, trader_poll_count := s.trader_poll_count + 1 }).1,
          RunResult.timedOut)
      else
        runPoll fe sp now coins rest
          { applyObs o s with trader_poll_count := s.trader_poll_count + 1 } := by
  have hp1 : (applyObs o s).auto_start_trader_pending = true := hp
  have hA : procRunning (applyObs o s).proc_neural = o.alive := procRunning_applyObs o s
  have hR : readyFlag (applyObs o s) = o.ready := rfl
  have hC : (applyObs o s).trader_poll_count = s.trader_poll_count := rfl
  by_cases ha : o.alive = true
  · by_cases hr : o.ready = true
    · simp [runPoll, poll_tick_for_coins, hp1, hA, hR, hC, ha, hr]
    · have hr' : o.ready = false := by revert hr; cases o.ready <;> simp
      by_cases h20 : 20 < s.trader_poll_count + 1
      · simp [runPoll, poll_tick_for_coins, hp1, hA, hR, hC, ha, hr', h20]
      · simp [runPoll, poll_tick_for_coins, hp1, hA, hR, hC, ha, hr', h20]
  · have ha' : o.alive = false := by revert ha; cases o.alive <;> simp
    simp [runPoll, poll_tick_for_coins, hp1, hA, hR, hC, ha']

theorem start_traders_pending (fe : Bool) (sp : SpawnResult) (now : Nat)
    (coins : List String) (s : HubState) :
    (start_traders_for_coins fe sp now coins s).1.auto_start_trader_pending
      = s.auto_start_trader_pending := by
  induction coins generalizing s with
  | nil => rfl
  | cons c cs ih => simp [start_traders_for_coins, start_trader_for_coin, ih]

theorem start_traders_count (fe : Bool) (sp : SpawnResult) (now : Nat)
    (coins : List String) (s : HubState) :
    (start_traders_for_coins fe sp now coins s).1.trader_poll_count = s.trader_poll_count := by
  induction coins generalizing s with
  | nil => rfl
  | cons c cs ih => simp [start_traders_for_coins, start_trader_for_coin, ih]

theorem start_traders_keeps_live (fe : Bool) (sp : SpawnResult) (now : Nat)
    (coins : List String) (s : HubState) (h : procRunning s.proc_trader = true) :
    procRunning (start_traders_for_coins fe sp now coins s).1.proc_trader = true := by
  induction coins generalizing s with
  | nil => exact h
  | cons c cs ih =>
      have hstep : start_trader_for_coin fe sp now c s = (s, []) := by
        simp [start_trader_for_coin, start_process, h]
      simp [start_traders_for_coins, hstep]
      exact ih s h

theorem start_trader_for_coin_live (pid now : Nat) (c : String) (s : HubState) :
    procRunning (start_trader_for_coin true (.ok pid) now c s).1.proc_trader = true := by
  by_cases h : procRunning s.proc_trader = true
  · simp [start_trader_for_coin, start_process, h]
  · have h' : procRunning s.proc_trader = false := by
      revert h; cases procRunning s.proc_trader <;> simp
    have hstep : start_process true (.ok pid) now s.proc_trader
        = (⟨some ⟨pid, true⟩, some now⟩, false, true) := by
      simp [start_process, h']
    simp [start_trader_for_coin, hstep, procRunning]

theorem start_traders_live (pid now : Nat) (coins : List String) (hne : coins ≠ [])
    (s : HubState) :
    procRunning (start_traders_for_coins true (.ok pid) now coins s).1.proc_trader = true := by
  match coins with
  | [] => exact absurd rfl hne
  | c :: cs =>
      simp only [start_traders_for_coins]
      exact start_traders_keeps_live true (.ok pid) now cs _ (start_trader_for_coin_live pid now c s)

theorem runPoll_notReady_timesOut (pid now : Nat) (coins : List String) (hne : coins ≠ []) :
    ∀ (m : Nat) (rest : List TickObs) (s : HubState),
      s.auto_start_trader_pending = true → s.trader_poll_count + m = 20 →
      (runPoll true (.ok pid) now coins (List.replicate (m + 1) ⟨true, false⟩ ++ rest) s).2
          = RunResult.timedOut ∧
      (runPoll true (.ok pid) now coins
          (List.replicate (m + 1) ⟨true, false⟩ ++ rest) s).1.auto_start_trader_pending = false ∧
      (runPoll true (.ok pid) now coins
          (List.replicate (m + 1) ⟨true, false⟩ ++ rest) s).1.trader_poll_count = 21 ∧
      procRunning (runPoll true (.ok pid) now coins
          (List.replicate (m + 1) ⟨true, false⟩ ++ rest) s).1.proc_trader = true := by
  intro m
  induction m with
  | zero =>
      intro rest s hp hc
      have h20 : 20 < s.trader_poll_count + 1 := by omega
      simp only [List.replicate_succ, List.replicate_zero, List.cons_append, List.nil_append]
      rw [runPoll_cons true (.ok pid) now coins _ rest s hp]
      simp only [if_neg (by simp : ¬((⟨true, false⟩ : TickObs).alive = false)),
        if_neg (by simp : ¬((⟨true, false⟩ : TickObs).ready = true)), if_pos h20]
      refine ⟨by simp, ?_, ?_, ?_⟩
      · rw [start_traders_pending]
      · rw [start_traders_count]
        show s.trader_poll_count + 1 = 21
        omega
      · exact start_traders_live pid now coins hne _
  | succ k ih =>
      intro rest s hp hc
      have h20 : ¬(20 < s.trader_poll_count + 1) := by omega
      rw [List.replicate_succ, List.cons_append,
        runPoll_cons true (.ok pid) now coins _ _ s hp]
      simp only [if_neg (by simp : ¬((⟨true, false⟩ : TickObs).alive = false)),
        if_neg (by simp : ¬((⟨true, false⟩ : TickObs).ready = true)), if_neg h20]
      exact ih rest _ hp (by show s.trader_poll_count + 1 + k = 20; omega)

/-! ## Claim theorems -/

/-- C1: the claim requires every generator-spawn path to rewrite the
readiness artifact to `ready=false` at spawn time.  The per-coin fleet
path `start_neural_for_coin` does not: run with a stale `ready=true`
artifact on an unregistered coin, it returns normally, spawns and
registers a live per-coin runner, and the artifact still reports ready —
whereas the single path `start_neural` does reset it. -/
theorem per_coin_spawn_keeps_stale_ready :
    start_neural_for_coin true (.ok 7) 100 "ETH" staleReadyState
      = Except.ok ({ staleReadyState with
          neural_runners := [("ETH", ⟨some ⟨7, true⟩, none⟩)] }, false,
          [Act.spawnNeuralRunner "ETH"]) ∧
    ({ staleReadyState with
        neural_runners := [("ETH", ⟨some ⟨7, true⟩, none⟩)] } : HubState).runner_ready_file
      = some ⟨true, "ready"⟩ ∧
    runnerLive { staleReadyState with
        neural_runners := [("ETH", ⟨some ⟨7, true⟩, none⟩)] } "ETH" = true ∧
    readyFlag (start_neural true (.ok 7) 100 staleReadyState).1 = false :=
  ⟨rfl, by decide, by decide, by decide⟩

/-- C6: starting a role whose handle is already live is a no-op success:
`_start_process` returns without spawning and without reporting an error
whenever the handle is live, and after one successful spawn from a
non-live handle a second start call (under any environment) spawns
nothing, reports nothing, and leaves the single live process unchanged;
the per-coin trainer start has the same duplicate-live guard. -/
theorem start_is_idempotent_noop :
    (∀ (fe : Bool) (sp : SpawnResult) (now : Nat) (p : ProcInfo),
      procRunning p = true → start_process fe sp now p = (p, false, false)) ∧
    (∀ (fe2 : Bool) (sp2 : SpawnResult) (pid now now2 : Nat) (p : ProcInfo),
      procRunning p = false →
      (start_process true (.ok pid) now p).2.2 = true ∧
      (start_process true (.ok pid) now p).2.1 = false ∧
      procRunning (start_process true (.ok pid) now p).1 = true ∧
      start_process fe2 sp2 now2 (start_process true (.ok pid) now p).1
        = ((start_process true (.ok pid) now p).1, false, false)) ∧
    (∀ (sp2 : SpawnResult) (now2 : Nat) (coin : String) (s : HubState),
      trainerLive s coin = true →
      start_single_trainer true sp2 now2 coin s = (s, false, false)) := by
  refine ⟨fun fe sp now p h => ?_, fun fe2 sp2 pid now now2 p h => ?_,
    fun sp2 now2 coin s h => ?_⟩
  · simp [start_process, h]
  · have h1 : start_process true (.ok pid) now p = (⟨some ⟨pid, true⟩, some now⟩, false, true) := by
      simp [start_process, h]
    rw [h1]
    simp [start_process, procRunning]
  · simp [start_single_trainer, h]

/-- C6 witness: concrete double start from a quiescent handle. -/
theorem start_is_idempotent_noop_witness :
    (procRunning deadInfo = false ∧ trainerLive { baseState with trainers := [("BTC", liveInfo 3)] } "BTC" = true) ∧
    ((start_process true (.ok 5) 10 deadInfo).2.2 = true ∧
      (start_process true (.ok 5) 10 deadInfo).2.1 = false ∧
      procRunning (start_process true (.ok 5) 10 deadInfo).1 = true ∧
      start_process false (.err "x") 11 (start_process true (.ok 5) 10 deadInfo).1
        = ((start_process true (.ok 5) 10 deadInfo).1, false, false)) ∧
    start_single_trainer true (.ok 9) 12 "BTC" { baseState with trainers := [("BTC", liveInfo 3)] }
      = ({ baseState with trainers := [("BTC", liveInfo 3)] }, false, false) :=
  ⟨⟨by decide, by decide⟩,
    start_is_idempotent_noop.2.1 false (.err "x") 5 10 11 deadInfo (by decide),
    start_is_idempotent_noop.2.2 (.ok 9) 12 "BTC" _ (by decide)⟩

/-- C10: whenever the OS-level `Popen` is reached and raises, every start
operation reports the failure, leaves the orchestrator state exactly as
before (no handle, no pid, no start time, no registry entry, no
trainer-status write), and lets no exception escape (the per-coin runner
start returns `.ok` with the error reported; its `Popen` is reachable
only with the coin unregistered, since the source's duplicate guard
raises an `AttributeError` of its own for any registered coin before the
spawn is attempted). -/
theorem spawn_failure_is_atomic :
    (∀ (m : String) (now : Nat) (p : ProcInfo),
      procRunning p = false → start_process true (.err m) now p = (p, true, false)) ∧
    (∀ (m : String) (now : Nat) (coin : String) (s : HubState),
      coin ≠ "" → s.neural_runners.lookup coin = none →
      start_neural_for_coin true (.err m) now coin s = Except.ok (s, true, [])) ∧
    (∀ (m : String) (now : Nat) (coin : String) (s : HubState),
      trainerLive s coin = false →
      start_single_trainer true (.err m) now coin s = (s, true, false)) := by
  refine ⟨fun m now p h => ?_, fun m now coin s hc hl => ?_, fun m now coin s h => ?_⟩
  · simp [start_process, h]
  · simp [start_neural_for_coin, hc, hl]
  · simp [start_single_trainer, h]

/-- C10 witness: a failing spawn at a concrete quiescent state. -/
theorem spawn_failure_is_atomic_witness :
    (procRunning deadInfo = false ∧ ("BTC" : String) ≠ "" ∧
      baseState.neural_runners.lookup "BTC" = none ∧
      trainerLive baseState "BTC" = false) ∧
    start_process true (.err "boom") 3 deadInfo = (deadInfo, true, false) ∧
    start_neural_for_coin true (.err "boom") 3 "BTC" baseState = Except.ok (baseState, true, []) ∧
    start_single_trainer true (.err "boom") 3 "BTC" baseState = (baseState, true, false) :=
  ⟨⟨by decide, by decide, rfl, by decide⟩,
    spawn_failure_is_atomic.1 "boom" 3 deadInfo (by decide),
    spawn_failure_is_atomic.2.1 "boom" 3 "BTC" baseState (by decide) rfl,
    spawn_failure_is_atomic.2.2 "boom" 3 "BTC" baseState (by decide)⟩

/-- C4: the mtime-cached read: a failed stat returns the default and
leaves the cache untouched; a hit at the observed mtime returns the
cached value without re-reading or re-decoding; otherwise the file is
decoded, stored as `(mtime, value)`, and the new value returned — and for
two reads at the same mtime the decoder runs only once (the second read
is served from cache). -/
theorem cached_read_semantics {α : Type} (fs : String → Option FileData)
    (decode : String → Option α) (dflt : α) (cache : List (String × Nat × α)) (path : String) :
    (fs path = none → cached fs decode dflt cache path = (dflt, cache, false)) ∧
    (∀ f v, fs path = some f → cache.lookup path = some (f.mtime, v) →
      cached fs decode dflt cache path = (v, cache, false)) ∧
    (∀ f, fs path = some f → (∀ v, cache.lookup path ≠ some (f.mtime, v)) →
      cached fs decode dflt cache path =
        ((decode f.content).getD dflt,
          upsertCache path f.mtime ((decode f.content).getD dflt) cache, true)) ∧
    (∀ f, fs path = some f →
      cached fs decode dflt (cached fs decode dflt cache path).2.1 path
        = ((cached fs decode dflt cache path).1, (cached fs decode dflt cache path).2.1, false)) := by
  refine ⟨fun h => ?_, fun f v hf hl => ?_, fun f hf hl => ?_, fun f hf => ?_⟩
  · simp [cached, h]
  · simp [cached, hf, hl]
  · unfold cached
    rw [hf]
    match hl2 : cache.lookup path with
    | none => simp
    | some (m, v) =>
        have hm : ¬m = f.mtime := fun he => hl v (by rw [hl2, he])
        simp [hm]
  · unfold cached
    rw [hf]
    match hl2 : cache.lookup path with
    | none => simp [lookup_upsertCache]
    | some (m, v) =>
        by_cases hm : m = f.mtime
        · simp [hm, hl2]
        · simp [hm, lookup_upsertCache]

/-- C4 witness: a concrete file read twice at the same mtime decodes
once. -/
theorem cached_read_semantics_witness :
    (cexFs "q" = none ∧ cexFs "p" = some ⟨1, "bad"⟩ ∧
      (∀ v : Nat, List.lookup "p" ([] : List (String × Nat × Nat)) ≠ some (1, v))) ∧
    cached cexFs sampleDecode 0 [] "q" = (0, [], false) ∧
    cached cexFs sampleDecode 0 []
        "p" = ((sampleDecode "bad").getD 0, upsertCache "p" 1 ((sampleDecode "bad").getD 0) [], true) ∧
    cached cexFs sampleDecode 0 (cached cexFs sampleDecode 0 [] "p").2.1 "p"
        = ((cached cexFs sampleDecode 0 [] "p").1, (cached cexFs sampleDecode 0 [] "p").2.1, false) :=
  ⟨⟨by decide, by decide, fun v => by simp [List.lookup]⟩,
    (cached_read_semantics cexFs sampleDecode 0 [] "q").1 (by decide),
    (cached_read_semantics cexFs sampleDecode 0 [] "p").2.2.1 ⟨1, "bad"⟩ (by decide)
      (fun v => by simp [List.lookup]),
    (cached_read_semantics cexFs sampleDecode 0 [] "p").2.2.2 ⟨1, "bad"⟩ (by decide)⟩

/-- C5 counterexample: in the neural-overview `_cached` helper the claim
fails — a decode failure (the loader's swallowed default) IS stored in
the cache under the observed mtime, and a second read at the same mtime
is served from cache without re-attempting the decode. -/
theorem cached_stores_defaulted_failed_decode :
    sampleDecode "bad" = none ∧
    cached cexFs sampleDecode 0 [] "p" = (0, [("p", 1, 0)], true) ∧
    cached cexFs sampleDecode 0 [("p", 1, 0)] "p" = (0, [("p", 1, 0)], false) := by
  refine ⟨by decide, ?_, ?_⟩ <;> simp [cached, cexFs, sampleDecode, List.lookup, upsertCache]

/-- C5 amended: the claimed never-cache-a-failed-decode behavior holds
for the `_tick` trainer-status cache — a decode failure yields the
default, stores nothing, and is re-attempted on the next call at the
same mtime — while the `_cached` helper instead stores the loader's
defaulted value under the observed mtime, and a subsequent read at an
unchanged mtime returns it from cache without re-running the loader. -/
theorem status_cache_decode_failure_semantics {α : Type} (fs : String → Option FileData)
    (decode : String → Option α) (dflt : α) (cache : List (String × Nat × α))
    (key path : String) :
    (∀ f, fs path = some f → decode f.content = none →
      (∀ v, cache.lookup key ≠ some (f.mtime, v)) →
      tickStatusCached fs decode dflt cache key path = (dflt, cache, true) ∧
      tickStatusCached fs decode dflt
          (tickStatusCached fs decode dflt cache key path).2.1 key path = (dflt, cache, true)) ∧
    (∀ f, fs path = some f → decode f.content = none →
      (∀ v, cache.lookup path ≠ some (f.mtime, v)) →
      cached fs decode dflt cache path = (dflt, upsertCache path f.mtime dflt cache, true) ∧
      cached fs decode dflt (upsertCache path f.mtime dflt cache) path
        = (dflt, upsertCache path f.mtime dflt cache, false)) := by
  constructor
  · intro f hf hd hl
    have h1 : tickStatusCached fs decode dflt cache key path = (dflt, cache, true) := by
      unfold tickStatusCached
      rw [hf]
      match hl2 : cache.lookup key with
      | none => simp [hd]
      | some (m, v) =>
          have hm : ¬m = f.mtime := fun he => hl v (by rw [hl2, he])
          simp [hm, hd]
    refine ⟨h1, ?_⟩
    rw [h1]
    exact h1
  · intro f hf hd hl
    constructor
    · unfold cached
      rw [hf]
      match hl2 : cache.lookup path with
      | none => simp [hd]
      | some (m, v) =>
          have hm : ¬m = f.mtime := fun he => hl v (by rw [hl2, he])
          simp [hm, hd]
    · unfold cached
      rw [hf]
      simp [lookup_upsertCache]

/-- C5 amended witness: the concrete undecodable file exercises both the
tick-cache retry behavior and the `_cached` store-the-default
behavior. -/
theorem status_cache_decode_failure_semantics_witness :
    (cexFs "p" = some ⟨1, "bad"⟩ ∧ sampleDecode "bad" = none ∧
      (∀ v : Nat, List.lookup "BTC" ([] : List (String × Nat × Nat)) ≠ some (1, v)) ∧
      (∀ v : Nat, List.lookup "p" ([] : List (String × Nat × Nat)) ≠ some (1, v))) ∧
    (tickStatusCached cexFs sampleDecode 0 [] "BTC" "p" = (0, [], true) ∧
      tickStatusCached cexFs sampleDecode 0
          (tickStatusCached cexFs sampleDecode 0 [] "BTC" "p").2.1 "BTC" "p" = (0, [], true)) ∧
    (cached cexFs sampleDecode 0 [] "p" = (0, upsertCache "p" 1 0 [], true) ∧
      cached cexFs sampleDecode 0 (upsertCache "p" 1 0 []) "p"
        = (0, upsertCache "p" 1 0 [], false)) :=
  ⟨⟨by decide, by decide, fun v => by simp [List.lookup], fun v => by simp [List.lookup]⟩,
    (status_cache_decode_failure_semantics cexFs sampleDecode 0 [] "BTC" "p").1 ⟨1, "bad"⟩
      (by decide) (by decide) (fun v => by simp [List.lookup]),
    (status_cache_decode_failure_semantics cexFs sampleDecode 0 [] "BTC" "p").2 ⟨1, "bad"⟩
      (by decide) (by decide) (fun v => by simp [List.lookup])⟩

/-- C9 counterexample: with no managed instruments the fleet flag is
`False` (the source's `if status_map else False`), not the claim's
vacuous truth; and a coin with no recognizable status state but a fresh
legacy completion stamp reports trained, which the claim's exhaustive
"exactly when" classification excludes. -/
theorem all_trained_counterexample :
    all_trained false 1000 [] (fun _ => legacyStampEnv) (fun _ => false) = false ∧
    legacyStampEnv.statusState = none ∧
    coin_is_trained false 1000 legacyStampEnv = true := by decide

/-- C9 amended: the fleet-level flag is true iff the managed-instrument
set is non-empty and every managed instrument reports trained, where
reporting trained is `_coin_is_trained` (status FINISHED or TRAINED, or
TRAINING with a recent completion stamp, or the dry-run saved-model
marker, or — with no recognized status state — the legacy recent-stamp
fallback). -/
theorem all_trained_iff_every_coin_trained (dryRun : Bool) (now : Int) (coins : List String)
    (fs : String → CoinEnv) (running : String → Bool) :
    all_trained dryRun now coins fs running = true ↔
      coins ≠ [] ∧ ∀ c ∈ coins, coin_is_trained dryRun now (fs c) = true := by
  have hpt : ∀ c : String,
      ((if coin_is_trained dryRun now (fs c) then "TRAINED"
        else if running c then "TRAINING" else "NOT TRAINED") = ("TRAINED" : String))
        = (coin_is_trained dryRun now (fs c) = true) := by
    intro c
    by_cases h : coin_is_trained dryRun now (fs c)
    · simp [h]
    · by_cases hr : running c <;> simp [h, hr]
  unfold all_trained training_status_map
  by_cases hc : coins = []
  · subst hc
    simp
  · simp only [List.isEmpty_eq_true, List.map_eq_nil_iff, hc, if_false]
    rw [List.all_eq_true]
    constructor
    · intro h
      refine ⟨hc, fun c hcin => ?_⟩
      have hmem := List.mem_map_of_mem
        (fun c => (c, if coin_is_trained dryRun now (fs c) then "TRAINED"
          else if running c then "TRAINING" else "NOT TRAINED")) hcin
      have := h _ hmem
      simpa [hpt c] using this
    · intro ⟨_, h⟩ e he
      obtain ⟨c, hcin, rfl⟩ := List.mem_map.mp he
      simpa [hpt c] using h c hcin

theorem runPoll_cancelled_iff_aux (fe : Bool) (sp : SpawnResult) (now : Nat)
    (coins : List String) :
    ∀ (obs : List TickObs) (s : HubState), s.auto_start_trader_pending = true →
      ((runPoll fe sp now coins obs s).2 = RunResult.cancelled ↔
        ∃ i, i < obs.length ∧ (i = 0 ∨ s.trader_poll_count + i ≤ 20) ∧
          (obs.getD i ⟨true, true⟩).alive = false ∧
          ∀ j, j < i → (obs.getD j ⟨true, true⟩).alive = true ∧
            (obs.getD j ⟨true, true⟩).ready = false) := by
  intro obs
  induction obs with
  | nil =>
      intro s hp
      simp [runPoll]
  | cons o rest ih =>
      intro s hp
      rw [runPoll_cons fe sp now coins o rest s hp]
      by_cases ha : o.alive = true
      · by_cases hr : o.ready = true
        · rw [if_neg (by simp [ha]), if_pos hr]
          constructor
          · intro h; simp at h
          · rintro ⟨i, hlen, hcond, hdead, hprev⟩
            exfalso
            match i with
            | 0 =>
                rw [List.getD_cons_zero, ha] at hdead
                cases hdead
            | Nat.succ i' =>
                have h0 := (hprev 0 (Nat.succ_pos i')).2
                rw [List.getD_cons_zero, hr] at h0
                cases h0
        · have hr' : o.ready = false := by revert hr; cases o.ready <;> simp
          rw [if_neg (by simp [ha]), if_neg (by simp [hr'])]
          by_cases h20 : 20 < s.trader_poll_count + 1
          · rw [if_pos h20]
            constructor
            · intro h; simp at h
            · rintro ⟨i, hlen, hcond, hdead, hprev⟩
              exfalso
              match i with
              | 0 =>
                  rw [List.getD_cons_zero, ha] at hdead
                  cases hdead
              | Nat.succ i' =>
                  rcases hcond with h0 | hle
                  · cases h0
                  · omega
          · rw [if_neg h20]
            have hp2 : ({ applyObs o s with
                trader_poll_count := s.trader_poll_count + 1 }).auto_start_trader_pending
                = true := hp
            rw [ih _ hp2]
            constructor
            · rintro ⟨i', hlen, hcond, hdead, hprev⟩
              refine ⟨i' + 1, by simpa using Nat.succ_lt_succ hlen, ?_, ?_, ?_⟩
              · right
                have hcnt : ({ applyObs o s with
                    trader_poll_count := s.trader_poll_count + 1 } : HubState).trader_poll_count
                    = s.trader_poll_count + 1 := rfl
                rcases hcond with h0 | hle
                · subst h0; omega
                · rw [hcnt] at hle; omega
              · rw [List.getD_cons_succ]; exact hdead
              · intro j hj
                match j with
                | 0 => rw [List.getD_cons_zero]; exact ⟨ha, hr'⟩
                | Nat.succ j' =>
                    rw [List.getD_cons_succ]
                    exact hprev j' (by omega)
            · rintro ⟨i, hlen, hcond, hdead, hprev⟩
              match i with
              | 0 =>
                  rw [List.getD_cons_zero, ha] at hdead
                  cases hdead
              | Nat.succ i' =>
                  refine ⟨i', by simpa using hlen, ?_, ?_, ?_⟩
                  · right
                    show s.trader_poll_count + 1 + i' ≤ 20
                    rcases hcond with h0 | hle
                    · cases h0
                    · omega
                  · rw [List.getD_cons_succ] at hdead; exact hdead
                  · intro j hj
                    have hpj := hprev (j + 1) (by omega)
                    rw [List.getD_cons_succ] at hpj
                    exact hpj
      · have ha' : o.alive = false := by revert ha; cases o.alive <;> simp
        rw [if_pos ha']
        refine ⟨fun _ => ⟨0, by simp, Or.inl rfl, ?_, fun j hj => absurd hj (Nat.not_lt_zero j)⟩,
          fun _ => rfl⟩
        rw [List.getD_cons_zero]
        exact ha'

/-- C2 counterexample: in the fleet path the dependency processes spawned
for the sequence are the per-coin runners, yet the poll checks the
never-started shared main handle: with a live per-coin runner registered
and the pending flag set, the very first tick returns CANCELLED while the
sequence's own runner is still running — contradicting the claim that
CANCELLED is returned only when the spawned dependency is not running. -/
theorem fleet_poll_cancels_despite_live_sequence_runners :
    runnerLive fleetPollState "BTC" = true ∧
    (runPoll true (.ok 9) 0 ["BTC"] [⟨false, false⟩] fleetPollState).2 = RunResult.cancelled ∧
    runnerLive (runPoll true (.ok 9) 0 ["BTC"] [⟨false, false⟩] fleetPollState).1 "BTC"
      = true := by decide

/-- C2 amended: the liveness checked on every tick, before the artifact
is read, is that of the shared main runner handle `proc_neural` (not of
the per-coin runners this sequence spawned); the poll returns CANCELLED
iff some tick within the attempt budget observes that handle not
running, every earlier tick having observed it running and the artifact
not ready; and a cancelling tick clears the pending flag without
touching the trader or rescheduling. -/
theorem poll_cancelled_iff_main_runner_dead (fe : Bool) (sp : SpawnResult) (now : Nat)
    (coins : List String) (obs : List TickObs) (s : HubState)
    (hp : s.auto_start_trader_pending = true) (hc : s.trader_poll_count = 0) :
    ((runPoll fe sp now coins obs s).2 = RunResult.cancelled ↔ deadBeforeReady obs) ∧
    (∀ s' : HubState, s'.auto_start_trader_pending = true →
      procRunning s'.proc_neural = false →
      poll_tick_for_coins fe sp now coins s'
        = ({ s' with auto_start_trader_pending := false }, PollOutcome.cancelled, [])) := by
  constructor
  · rw [runPoll_cancelled_iff_aux fe sp now coins obs s hp]
    unfold deadBeforeReady
    constructor
    · rintro ⟨i, hlen, hcond, hdead, hprev⟩
      refine ⟨i, hlen, ?_, hdead, hprev⟩
      rcases hcond with h0 | hle
      · omega
      · omega
    · rintro ⟨i, hlen, hle, hdead, hprev⟩
      exact ⟨i, hlen, Or.inr (by omega), hdead, hprev⟩
  · intro s' hp' hd'
    exact poll_tick_depDead fe sp now coins s' hp' hd'

/-- C2 amended witness: a one-tick run observing the main handle dead. -/
theorem poll_cancelled_iff_main_runner_dead_witness :
    (pendingPollState.auto_start_trader_pending = true ∧
      pendingPollState.trader_poll_count = 0) ∧
    (((runPoll true (.ok 9) 0 ["BTC"] [⟨false, false⟩] pendingPollState).2
        = RunResult.cancelled ↔ deadBeforeReady [⟨false, false⟩]) ∧
      (∀ s' : HubState, s'.auto_start_trader_pending = true →
        procRunning s'.proc_neural = false →
        poll_tick_for_coins true (.ok 9) 0 ["BTC"] s'
          = ({ s' with auto_start_trader_pending := false }, PollOutcome.cancelled, []))) :=
  ⟨⟨by decide, by decide⟩,
    poll_cancelled_iff_main_runner_dead true (.ok 9) 0 ["BTC"] [⟨false, false⟩]
      pendingPollState (by decide) (by decide)⟩

/-- C3: in a run where the main dependency handle stays running and the
artifact never reports ready, the poll performs its bounded attempts —
the counter is incremented each tick and the 21st not-ready tick drives
it past `maxAttempts = 20` — and returns TIMED_OUT, clearing the pending
flag and proceeding to start the trading role anyway. -/
theorem poll_times_out_after_bounded_attempts (pid now n : Nat) (coins : List String)
    (s : HubState) (hne : coins ≠ []) (hp : s.auto_start_trader_pending = true)
    (hc : s.trader_poll_count = 0) :
    (runPoll true (.ok pid) now coins (List.replicate (21 + n) ⟨true, false⟩) s).2
        = RunResult.timedOut ∧
    (runPoll true (.ok pid) now coins
        (List.replicate (21 + n) ⟨true, false⟩) s).1.auto_start_trader_pending = false ∧
    (runPoll true (.ok pid) now coins
        (List.replicate (21 + n) ⟨true, false⟩) s).1.trader_poll_count = 21 ∧
    procRunning (runPoll true (.ok pid) now coins
        (List.replicate (21 + n) ⟨true, false⟩) s).1.proc_trader = true := by
  have hsplit : List.replicate (21 + n) (⟨true, false⟩ : TickObs)
      = List.replicate (20 + 1) ⟨true, false⟩ ++ List.replicate n ⟨true, false⟩ := by
    rw [← List.replicate_add]
  rw [hsplit]
  exact runPoll_notReady_timesOut pid now coins hne 20 (List.replicate n ⟨true, false⟩) s hp
    (by omega)

/-- C3 witness: the never-ready run at a concrete pending state. -/
theorem poll_times_out_after_bounded_attempts_witness :
    ((["BTC"] : List String) ≠ [] ∧ pendingPollState.auto_start_trader_pending = true ∧
      pendingPollState.trader_poll_count = 0) ∧
    ((runPoll true (.ok 2) 0 ["BTC"] (List.replicate 21 ⟨true, false⟩) pendingPollState).2
        = RunResult.timedOut ∧
      (runPoll true (.ok 2) 0 ["BTC"]
          (List.replicate 21 ⟨true, false⟩) pendingPollState).1.auto_start_trader_pending = false ∧
      (runPoll true (.ok 2) 0 ["BTC"]
          (List.replicate 21 ⟨true, false⟩) pendingPollState).1.trader_poll_count = 21 ∧
      procRunning (runPoll true (.ok 2) 0 ["BTC"]
          (List.replicate 21 ⟨true, false⟩) pendingPollState).1.proc_trader = true) :=
  ⟨⟨by decide, by decide, by decide⟩,
    poll_times_out_after_bounded_attempts 2 0 0 ["BTC"] pendingPollState (by decide)
      (by decide) (by decide)⟩

/-- C7: `stop_all_scripts` first clears the pending fleet-start flag,
then issues the trading-role stop strictly before the generating-role
stop, which is strictly before every training-role stop (one per
registered trainer, in registry order), and writes the explicit
`ready=false` readiness record as the final step. -/
theorem stop_all_reverse_dependency_order (s : HubState) :
    (stop_all_scripts s).1.auto_start_trader_pending = false ∧
    (stop_all_scripts s).2.head? = some Act.clearPendingFlag ∧
    (stop_all_scripts s).2.getLast? = some (Act.writeReadyRecord false "stopped") ∧
    (stop_all_scripts s).1.runner_ready_file = some ⟨false, "stopped"⟩ ∧
    (∀ (i j : Nat) (a b : Act), (stop_all_scripts s).2.get? i = some a →
      (stop_all_scripts s).2.get? j = some b →
      isTradingStop a = true → isGeneratingStop b = true → i < j) ∧
    (∀ (i j : Nat) (a b : Act), (stop_all_scripts s).2.get? i = some a →
      (stop_all_scripts s).2.get? j = some b →
      isGeneratingStop a = true → isTrainingStop b = true → i < j) := by
  have htail : ∀ (k : Nat) (a : Act),
      ((s.trainers.map (fun (e : String × ProcInfo) => Act.stopCallTrainer e.1)) ++
        [Act.writeReadyRecord false "stopped"]).get? k = some a →
      isTradingStop a = false ∧ isGeneratingStop a = false := by
    intro k a hk
    have hmem := List.get?_mem hk
    rcases List.mem_append.mp hmem with hm | hm
    · rcases List.mem_map.mp hm with ⟨e, _, rfl⟩
      exact ⟨rfl, rfl⟩
    · rw [List.mem_singleton.mp hm]
      exact ⟨rfl, rfl⟩
  have htrade : ∀ (i : Nat) (a : Act), (stop_all_scripts s).2.get? i = some a →
      isTradingStop a = true → i = 1 := by
    intro i a hi hta
    match i with
    | 0 => cases hi; simp [isTradingStop] at hta
    | 1 => rfl
    | 2 => cases hi; simp [isTradingStop] at hta
    | Nat.succ (Nat.succ (Nat.succ n)) =>
        have := (htail n a hi).1
        rw [hta] at this
        cases this
  have hgen : ∀ (j : Nat) (a : Act), (stop_all_scripts s).2.get? j = some a →
      isGeneratingStop a = true → j = 2 := by
    intro j a hj hga
    match j with
    | 0 => cases hj; simp [isGeneratingStop] at hga
    | 1 => cases hj; simp [isGeneratingStop] at hga
    | 2 => rfl
    | Nat.succ (Nat.succ (Nat.succ n)) =>
        have := (htail n a hj).2
        rw [hga] at this
        cases this
  have htrain : ∀ (j : Nat) (a : Act), (stop_all_scripts s).2.get? j = some a →
      isTrainingStop a = true → 3 ≤ j := by
    intro j a hj hta
    match j with
    | 0 => cases hj; simp [isTrainingStop] at hta
    | 1 => cases hj; simp [isTrainingStop] at hta
    | 2 => cases hj; simp [isTrainingStop] at hta
    | Nat.succ (Nat.succ (Nat.succ n)) => omega
  refine ⟨rfl, rfl, ?_, rfl, ?_, ?_⟩
  · show ((Act.clearPendingFlag :: Act.stopCallTrader :: Act.stopCallNeural ::
      s.trainers.map (fun (e : String × ProcInfo) => Act.stopCallTrainer e.1)) ++
        [Act.writeReadyRecord false "stopped"]).getLast? = some (Act.writeReadyRecord false "stopped")
    exact List.getLast?_concat _
  · intro i j a b hi hj hta hgb
    rw [htrade i a hi hta, hgen j b hj hgb]
    omega
  · intro i j a b hi hj hga htb
    rw [hgen i a hi hga]
    have := htrain j b hj htb
    omega

/-- C7 witness: the concrete stop sequence over a hub with one live
trainer. -/
theorem stop_all_reverse_dependency_order_witness :
    ((stop_all_scripts trainersState).2.get? 1 = some Act.stopCallTrader ∧
      (stop_all_scripts trainersState).2.get? 2 = some Act.stopCallNeural ∧
      (stop_all_scripts trainersState).2.get? 3 = some (Act.stopCallTrainer "BTC") ∧
      isTradingStop Act.stopCallTrader = true ∧ isGeneratingStop Act.stopCallNeural = true ∧
      isTrainingStop (Act.stopCallTrainer "BTC") = true) ∧
    (1 : Nat) < 2 ∧ (2 : Nat) < 3 :=
  ⟨⟨by decide, by decide, by decide, by decide, by decide, by decide⟩,
    (stop_all_reverse_dependency_order trainersState).2.2.2.2.1 1 2 Act.stopCallTrader
      Act.stopCallNeural (by decide) (by decide) (by decide) (by decide),
    (stop_all_reverse_dependency_order trainersState).2.2.2.2.2 2 3 Act.stopCallNeural
      (Act.stopCallTrainer "BTC") (by decide) (by decide) (by decide) (by decide)⟩

theorem hasTraderSpawn_append (l1 l2 : List Act) :
    hasTraderSpawn (l1 ++ l2) = (hasTraderSpawn l1 || hasTraderSpawn l2) := by
  simp [hasTraderSpawn, List.any_append]

theorem runEvs_append (l1 l2 : List Ev) (s : Sys) :
    runEvs (l1 ++ l2) s
      = ((runEvs l2 (runEvs l1 s).1).1, (runEvs l1 s).2 ++ (runEvs l2 (runEvs l1 s).1).2) := by
  induction l1 generalizing s with
  | nil => simp [runEvs]
  | cons e rest ih => simp [runEvs, ih, List.append_assoc]

theorem stop_all_acts_no_trader_spawn (s : HubState) :
    hasTraderSpawn (stop_all_scripts s).2 = false := by
  simp only [stop_all_scripts, hasTraderSpawn, List.any_cons, List.any_append, List.any_map]
  simp [isTraderSpawn, Function.comp]
  intro a c p _ hx
  rw [← hx]

theorem procRunning_stop_process (p : ProcInfo) : procRunning (stop_process p) = false := by
  by_cases h : procRunning p = true
  · cases hp : p.proc with
    | none => simp [procRunning, hp] at h
    | some q =>
        have hq : q.alive = true := by simpa [procRunning, hp] using h
        simp [stop_process, h, hp, hq, procRunning]
  · have h' : procRunning p = false := by revert h; cases procRunning p <;> simp
    simp [stop_process, h']

theorem stop_all_neural_dead (s : HubState) :
    procRunning (stop_all_scripts s).1.proc_neural = false :=
  procRunning_stop_process _

theorem start_neural_for_coin_props (fe : Bool) (sp : SpawnResult) (now : Nat) (c : String)
    (s : HubState) :
    ∀ r, start_neural_for_coin fe sp now c s = .ok r →
      r.1.proc_neural = s.proc_neural ∧ hasTraderSpawn r.2.2 = false := by
  intro r hr
  unfold start_neural_for_coin at hr
  by_cases h1 : c = ""
  · rw [if_pos h1] at hr
    cases hr
    exact ⟨rfl, rfl⟩
  · rw [if_neg h1] at hr
    by_cases h2 : fe = false
    · rw [if_pos h2] at hr
      cases hr
      exact ⟨rfl, rfl⟩
    · rw [if_neg h2] at hr
      match hl : s.neural_runners.lookup c with
      | some p =>
          rw [hl] at hr
          cases hr
      | none =>
          rw [hl] at hr
          cases sp with
          | ok pid =>
              cases hr
              exact ⟨rfl, rfl⟩
          | err m =>
              cases hr
              exact ⟨rfl, rfl⟩

theorem sntt_go_props (fe : Bool) (sp : SpawnResult) (now : Nat) :
    ∀ (coins : List String) (s : HubState),
      (start_neural_then_trader.go fe sp now coins s).1.proc_neural = s.proc_neural ∧
      hasTraderSpawn (start_neural_then_trader.go fe sp now coins s).2.1 = false := by
  intro coins
  induction coins with
  | nil => intro s; exact ⟨rfl, rfl⟩
  | cons c cs ih =>
      intro s
      show ((match start_neural_for_coin fe sp now c s with
        | .ok r =>
            ((start_neural_then_trader.go fe sp now cs r.1).1,
              r.2.2 ++ (start_neural_then_trader.go fe sp now cs r.1).2.1,
              (start_neural_then_trader.go fe sp now cs r.1).2.2)
        | .error _ => (s, [], true)).1.proc_neural = s.proc_neural ∧
        hasTraderSpawn (match start_neural_for_coin fe sp now c s with
        | .ok r =>
            ((start_neural_then_trader.go fe sp now cs r.1).1,
              r.2.2 ++ (start_neural_then_trader.go fe sp now cs r.1).2.1,
              (start_neural_then_trader.go fe sp now cs r.1).2.2)
        | .error _ => (s, [], true)).2.1 = false)
      cases hsc : start_neural_for_coin fe sp now c s with
      | ok r =>
          have h1 := start_neural_for_coin_props fe sp now c s r hsc
          have h2 := ih r.1
          refine ⟨?_, ?_⟩
          · rw [h2.1, h1.1]
          · rw [hasTraderSpawn_append, h1.2, h2.2]
            rfl
      | error msg => exact ⟨rfl, rfl⟩

theorem sntt_props (fe : Bool) (sp : SpawnResult) (now : Nat) (coins : List String)
    (s : HubState) :
    (start_neural_then_trader fe sp now coins s).1.proc_neural = s.proc_neural ∧
    hasTraderSpawn (start_neural_then_trader fe sp now coins s).2.1 = false := by
  have h := sntt_go_props fe sp now coins
    { s with auto_start_trader_pending := true, trader_poll_count := 0 }
  exact ⟨h.1, h.2⟩

theorem stepEv_preserves_dead (e : Ev) (y : Sys)
    (hd : procRunning y.hub.proc_neural = false) :
    procRunning (stepEv e y).1.hub.proc_neural = false ∧
    hasTraderSpawn (stepEv e y).2 = false := by
  obtain ⟨h, q⟩ := y
  cases e with
  | stopAll => exact ⟨stop_all_neural_dead h, stop_all_acts_no_trader_spawn h⟩
  | readyWrite b st => exact ⟨hd, rfl⟩
  | runNext fe sp now =>
      cases q with
      | nil => exact ⟨hd, rfl⟩
      | cons cb rest =>
          cases cb with
          | startSeq coins =>
              have hg := sntt_props fe sp now coins h
              constructor
              · show procRunning (start_neural_then_trader fe sp now coins h).1.proc_neural = false
                rw [hg.1]; exact hd
              · show hasTraderSpawn (start_neural_then_trader fe sp now coins h).2.1 = false
                exact hg.2
          | pollCoins coins =>
              by_cases hp : h.auto_start_trader_pending = true
              · have hr := poll_tick_depDead fe sp now coins h hp hd
                constructor
                · show procRunning (poll_tick_for_coins fe sp now coins h).1.proc_neural = false
                  rw [hr]; exact hd
                · show hasTraderSpawn (poll_tick_for_coins fe sp now coins h).2.2 = false
                  rw [hr]; rfl
              · have hp' : h.auto_start_trader_pending = false := by
                  revert hp; cases h.auto_start_trader_pending <;> simp
                have hr := poll_tick_noPending fe sp now coins h hp'
                constructor
                · show procRunning (poll_tick_for_coins fe sp now coins h).1.proc_neural = false
                  rw [hr]; exact hd
                · show hasTraderSpawn (poll_tick_for_coins fe sp now coins h).2.2 = false
                  rw [hr]; rfl

theorem runEvs_preserves_dead (evs : List Ev) (y : Sys)
    (hd : procRunning y.hub.proc_neural = false) :
    procRunning (runEvs evs y).1.hub.proc_neural = false ∧
    hasTraderSpawn (runEvs evs y).2 = false := by
  induction evs generalizing y with
  | nil => exact ⟨hd, rfl⟩
  | cons e rest ih =>
      have hstep := stepEv_preserves_dead e y hd
      have hrest := ih (stepEv e y).1 hstep.1
      constructor
      · show procRunning (runEvs rest (stepEv e y).1).1.hub.proc_neural = false
        exact hrest.1
      · show hasTraderSpawn ((stepEv e y).2 ++ (runEvs rest (stepEv e y).1).2) = false
        rw [hasTraderSpawn_append, hstep.2, hrest.2]
        rfl

/-- C8: in every event-loop execution that starts at the moment the
StartAll sequence has observed all instruments trained (the start
callback is queued, awaiting the control tick), if `stop_all_scripts`
runs at any point before a trading-role process has been spawned, then
no trading-role process is ever spawned — including by the sequence's
own callbacks (the start helper and its readiness polls) that were
scheduled before the stop arrived and still run afterwards. -/
theorem stop_all_prevents_trader_spawn (hub0 : HubState) (coins : List String)
    (evs1 evs2 : List Ev)
    (hpre : hasTraderSpawn (runEvs evs1 ⟨hub0, [Cb.startSeq coins]⟩).2 = false) :
    hasTraderSpawn (runEvs (evs1 ++ Ev.stopAll :: evs2) ⟨hub0, [Cb.startSeq coins]⟩).2
      = false := by
  rw [runEvs_append, hasTraderSpawn_append, hpre]
  have h1 := stop_all_acts_no_trader_spawn (runEvs evs1 ⟨hub0, [Cb.startSeq coins]⟩).1.hub
  have h2 := runEvs_preserves_dead evs2
    (stepEv Ev.stopAll (runEvs evs1 ⟨hub0, [Cb.startSeq coins]⟩).1).1
    (stop_all_neural_dead (runEvs evs1 ⟨hub0, [Cb.startSeq coins]⟩).1.hub)
  have hfin : hasTraderSpawn
      (runEvs (Ev.stopAll :: evs2) (runEvs evs1 ⟨hub0, [Cb.startSeq coins]⟩).1).2 = false := by
    show hasTraderSpawn
      ((stepEv Ev.stopAll (runEvs evs1 ⟨hub0, [Cb.startSeq coins]⟩).1).2 ++
        (runEvs evs2 (stepEv Ev.stopAll (runEvs evs1 ⟨hub0, [Cb.startSeq coins]⟩).1).1).2) = false
    rw [hasTraderSpawn_append, h2.2]
    show (hasTraderSpawn (stop_all_scripts (runEvs evs1 ⟨hub0, [Cb.startSeq coins]⟩).1.hub).2
        || false) = false
    rw [h1]
    rfl
  rw [hfin]
  rfl

/-- C8 witness: a concrete race — the stop arrives while the start
callback is still queued; the callback then runs, spawns the per-coin
runner, the generator even writes `ready=true`, and the polls fire — yet
no trading-role process is ever spawned. -/
theorem stop_all_prevents_trader_spawn_witness :
    hasTraderSpawn (runEvs ([] : List Ev) ⟨staleReadyState, [Cb.startSeq ["BTC"]]⟩).2 = false ∧
    hasTraderSpawn (runEvs ([] ++ Ev.stopAll ::
        [Ev.runNext true (.ok 11) 5, Ev.readyWrite true "running",
          Ev.runNext true (.ok 12) 6, Ev.runNext true (.ok 13) 7])
      ⟨staleReadyState, [Cb.startSeq ["BTC"]]⟩).2 = false :=
  ⟨by decide,
    stop_all_prevents_trader_spawn staleReadyState ["BTC"] []
      [Ev.runNext true (.ok 11) 5, Ev.readyWrite true "running",
        Ev.runNext true (.ok 12) 6, Ev.runNext true (.ok 13) 7] (by decide)⟩

end PTHub
